import Mathlib

/-!
Verification of the go-ssz repository's decoder (`decode.go`) and
Merkleization/packing routines (the unnamed hashing source file) against its
natural-language specification.

Shallow embedding conventions:
* Go `[]byte` is `List Nat` (each entry a byte value `< 256`; the decoders
  only inspect values, never overflow).
* A Go decoder returns `(int, error)` and writes into a `reflect.Value`; we
  return `GoRes`, which carries the decoded value and the byte count on
  success, the error message on failure, and `crash` for a Go runtime panic
  (index/slice out of range).  Slices are modelled with capacity equal to
  length, so slicing past the length is a `crash`.
* The SHA-256 function is abstract (the spec injects it as a parameter), so
  every Merkleization definition takes `hash : List Nat → List Nat`.
-/

/-- Little-endian interpretation of a byte list, as computed by
`binary.LittleEndian.UintNN` on an `N/8`-byte buffer. -/
def leUint (l : List Nat) : Nat :=
  l.foldr (fun b acc => b + 256 * acc) 0

/-- Go `copy(dst, src)`: the first `min (len dst) (len src)` bytes of `dst`
are replaced by those of `src`; the rest of `dst` is kept. -/
def goCopy (dst src : List Nat) : List Nat :=
  src.take dst.length ++ dst.drop src.length

/-- Decoded SSZ values (the subset of Go output types the claims exercise). -/
inductive SSZVal : Type
  | b (x : Bool)
  | u (x : Nat)
  | bytes (x : List Nat)
  | list (xs : List SSZVal)

/-- Outcome of a Go decoder call: success with value and byte count, an
error return, or a runtime panic (`crash`). -/
inductive GoRes : Type
  | ok (v : SSZVal) (n : Nat)
  | err (msg : String)
  | crash

/-- `decodeBool` from decode.go: reads `input[0]` (panicking on empty input),
accepts 0 as false and 1 as true, anything else is an error. -/
def decodeBool : List Nat → GoRes
  | [] => .crash
  | v :: _ =>
    if v = 0 then .ok (.b false) 1
    else if v = 1 then .ok (.b true) 1
    else .err ("expect 0 or 1 for decoding bool but got " ++ toString v)

/-- `decodeUint8` from decode.go: reads `input[0]`, panicking on empty input. -/
def decodeUint8 : List Nat → GoRes
  | [] => .crash
  | v :: _ => .ok (.u v) 1

/-- `decodeUint16` from decode.go: copies into a 2-byte zero buffer (so short
input is zero-padded, never an error) and reads it little-endian. -/
def decodeUint16 (input : List Nat) : GoRes :=
  .ok (.u (leUint (goCopy (List.replicate 2 0) input))) 2

/-- `decodeUint32` from decode.go: copies into a 4-byte zero buffer and reads
it little-endian. -/
def decodeUint32 (input : List Nat) : GoRes :=
  .ok (.u (leUint (goCopy (List.replicate 4 0) input))) 4

/-- `decodeUint64` from decode.go: copies into an 8-byte zero buffer (so short
input is zero-padded, never an error) and reads it little-endian. -/
def decodeUint64 (input : List Nat) : GoRes :=
  .ok (.u (leUint (goCopy (List.replicate 8 0) input))) 8

/-- `decodeByteSlice` from decode.go: `val.SetBytes(input)` and report the
whole length as consumed. -/
def decodeByteSlice (input : List Nat) : GoRes :=
  .ok (.bytes input) input.length

/-- The basic (fixed-size primitive) SSZ kinds of the Go type switch. -/
inductive BasicKind : Type
  | bool | uint8 | uint16 | uint32 | uint64

/-- Modelled from the spec: `basicElementSize` lives in a repository file not
under src/; §3 of the spec fixes the sizes (Boolean one byte, Uint{N} exactly
N/8 bytes). -/
def basicElementSize : BasicKind → Nat
  | .bool => 1
  | .uint8 => 1
  | .uint16 => 2
  | .uint32 => 4
  | .uint64 => 8

/-- Dispatch of the basic-kind decoders, mirroring the head of the
`makeDecoder` type switch. -/
def basicDecoder : BasicKind → List Nat → GoRes
  | .bool => decodeBool
  | .uint8 => decodeUint8
  | .uint16 => decodeUint16
  | .uint32 => decodeUint32
  | .uint64 => decodeUint64

/-- The loop of `makeBasicSliceDecoder` (decode.go lines 137-156): walk the
input in strides of `elemSize`, decoding `input[i : i+elemSize]` into element
slot `elementIndex` of a freshly made slice of `size = len(input)/elemSize`
elements.  Slicing past the end of the input or indexing past `size` is a Go
panic (`crash`).  `fuel` only bounds the recursion; the caller passes
`input.length + 1`, which the stride `elemSize ≥ 1` can never exhaust. -/
def basicSliceLoop (elemSize : Nat) (dec : List Nat → GoRes) (size : Nat) :
    Nat → List Nat → Nat → List SSZVal → Nat → GoRes
  | 0, _, _, _, _ => .crash
  | fuel + 1, rest, elementIndex, acc, decodeSize =>
    if rest.isEmpty then
      if decodeSize < size then .err "input is too long" else .ok (.list acc) size
    else if rest.length < elemSize then .crash
    else if size ≤ elementIndex then .crash
    else
      match dec (rest.take elemSize) with
      | .ok v n =>
          basicSliceLoop elemSize dec size fuel (rest.drop elemSize)
            (elementIndex + 1) (acc ++ [v]) (decodeSize + n)
      | .err m => .err ("failed to decode element of slice: " ++ m)
      | .crash => .crash

/-- `makeBasicSliceDecoder` from decode.go: element size from the basic kind,
element count `len(input) / elemSize`, then the stride loop. -/
def makeBasicSliceDecoder (e : BasicKind) (input : List Nat) : GoRes :=
  basicSliceLoop (basicElementSize e) (basicDecoder e) (input.length / basicElementSize e)
    (input.length + 1) input 0 [] 0

/-- Modelled from the spec: `BytesPerLengthOffset` is declared in a repository
file not under src/; §4.2 fixes `BYTES_PER_LENGTH_OFFSET = 4`. -/
def BytesPerLengthOffset : Nat := 4

/-- Outcome of the composite-slice decoder of decode.go, whose loop carries no
progress: `outOfFuel` reports that the given iteration budget was exhausted
with the loop state unchanged (the Go loop runs forever in that case). -/
inductive CompositeResult : Type
  | done (size : Nat)
  | err (msg : String)
  | crash
  | outOfFuel

/-- The loop of `makeCompositeSliceDecoder` (decode.go lines 183-187) exactly
as written: while `currentIndex < firstOffset`, return an error if
`currentOffset > len(input)`, and otherwise iterate again — no variable is
ever updated in the loop body. -/
def compositeSliceLoop (currentIndex firstOffset currentOffset inputLen size : Nat) :
    Nat → CompositeResult
  | 0 => .outOfFuel
  | fuel + 1 =>
    if currentIndex < firstOffset then
      if currentOffset > inputLen then .err "offset out of bounds"
      else compositeSliceLoop currentIndex firstOffset currentOffset inputLen size fuel
    else .done size

/-- `makeCompositeSliceDecoder` from decode.go: element count is taken to be
`len(input) / BytesPerLengthOffset`, the first offset is read from
`input[:BytesPerLengthOffset]` (the source line passes a plain `uint64` where
a `reflect.Value` is required and does not type-check in Go; it is modelled
charitably as reading the 4-byte little-endian offset the surrounding code
expects), and then the non-progressing loop above runs.  No element is ever
decoded and no further offset is ever read. -/
def compositeSliceDecode (fuel : Nat) (input : List Nat) : CompositeResult :=
  if input.length < BytesPerLengthOffset then .crash
  else
    let firstOffset := leUint (input.take BytesPerLengthOffset)
    compositeSliceLoop 0 firstOffset firstOffset input.length
      (input.length / BytesPerLengthOffset) fuel

/-- The SSZ kinds covered by this embedding of the `makeDecoder` switch. -/
inductive SSZKind : Type
  | basic (b : BasicKind)
  | byteSlice
  | basicSlice (elem : BasicKind)

/-- `makeDecoder` from decode.go, restricted to the kinds above. -/
def makeDecoder : SSZKind → List Nat → GoRes
  | .basic b => basicDecoder b
  | .byteSlice => decodeByteSlice
  | .basicSlice e => makeBasicSliceDecoder e

/-- The `val interface{}` argument of `Decode`: a nil interface, a value of
non-pointer kind, a typed nil pointer, or a valid pointer to a target. -/
inductive GoTarget : Type
  | nilInterface
  | nonPointer (k : SSZKind)
  | nilPointer (k : SSZKind)
  | pointer (k : SSZKind)

/-- Outcome of the exported `Decode`: Go returns `error` (nil on success); a
runtime panic inside a decoder is kept apart as `crash`. -/
inductive Outcome : Type
  | success
  | failure (msg : String)
  | crash

/-- `Decode` from decode.go lines 25-46: nil target and non-pointer target are
rejected before any byte of the input is examined; a typed nil pointer is also
rejected; otherwise the kind's decoder runs on the input. -/
def Decode (input : List Nat) (val : GoTarget) : Outcome :=
  match val with
  | .nilInterface => .failure "cannot decode into nil"
  | .nonPointer _ => .failure "can only decode into pointer target"
  | .nilPointer _ => .failure "cannot output to pointer of nil"
  | .pointer k =>
    match makeDecoder k input with
    | .ok _ _ => .success
    | .err m => .failure m
    | .crash => .crash

/-- Modelled from the spec: the encoder is in a repository file not under
src/; §3 and scenario S1 fix Uint64 encoding as exactly 8 little-endian
bytes. -/
def encodeUint64 (v : Nat) : List Nat :=
  [v % 256, v / 256 % 256, v / 256 ^ 2 % 256, v / 256 ^ 3 % 256,
   v / 256 ^ 4 % 256, v / 256 ^ 5 % 256, v / 256 ^ 6 % 256, v / 256 ^ 7 % 256]

/-- `BytesPerChunk` from the hashing source file. -/
def BytesPerChunk : Nat := 32

/-- A fresh `make([]byte, BytesPerChunk)` zero chunk. -/
def zeroChunk : List Nat := List.replicate BytesPerChunk 0

/-- `isPowerOf2` from the hashing source file: `n != 0 && n&(n-1) == 0`. -/
def isPowerOf2 (n : Nat) : Bool :=
  n != 0 && (n &&& (n - 1)) == 0

/-- The `areAllEmpty` scan at the top of `pack`: every serialized item equals
the empty byte slice. -/
def areAllEmpty (items : List (List Nat)) : Bool :=
  items.all (·.isEmpty)

/-- The chunk-building loop of `pack` (lines 497-507): walk the flattened
bytes in strides of `BytesPerChunk`, clipping the upper index to the total
length, so every chunk is 32 bytes except possibly the last.  An empty input
produces no chunks (the Go loop body never runs). -/
def chunkify (l : List Nat) : List (List Nat) :=
  if l.length = 0 then []
  else if l.length ≤ BytesPerChunk then [l]
  else l.take BytesPerChunk :: chunkify (l.drop BytesPerChunk)
termination_by l.length
decreasing_by simp [BytesPerChunk]; omega

/-- The final padding loop of `pack` (lines 510-514): append zero bytes to a
chunk until it reaches `BytesPerChunk` bytes. -/
def padChunkRight (c : List Nat) : List Nat :=
  c ++ List.replicate (BytesPerChunk - c.length) 0

/-- `pack` from the hashing source file: an empty or all-empty item sequence
yields one zero chunk; if the **first** item is exactly 32 bytes long the item
sequence is returned unchanged (no flattening, no padding of later items);
otherwise the items are flattened, cut into 32-byte chunks, and the last chunk
is right-padded with zeros. -/
def pack (serializedItems : List (List Nat)) : Except String (List (List Nat)) :=
  if serializedItems.length == 0 || areAllEmpty serializedItems then .ok [zeroChunk]
  else if (serializedItems.headD []).length = BytesPerChunk then .ok serializedItems
  else
    let chunks := chunkify serializedItems.flatten
    .ok (chunks.dropLast ++ [padChunkRight (chunks.getLastD [])])

/-- One pass of the layer loop in `merkleize` (lines 536-539): hash adjacent
pairs.  A layer of odd length above one makes `hashLayer[i+1]` panic in Go,
reported as `none`. -/
def hashPairs (hash : List Nat → List Nat) : List (List Nat) → Option (List (List Nat))
  | [] => some []
  | [_] => none
  | a :: b :: rest =>
    match hashPairs hash rest with
    | none => none
    | some l => some (hash (a ++ b) :: l)

/-- The outer layer loop of `merkleize` (lines 534-542): repeat `hashPairs`
until at most one chunk remains, then read `hashLayer[0]` (an empty layer
would panic, reported as `none`).  `fuel` only bounds the iteration count; the
caller passes one more than the layer length, which halving can never
exhaust. -/
def merkleizeLayers (hash : List Nat → List Nat) : Nat → List (List Nat) → Option (List Nat)
  | 0, _ => none
  | fuel + 1, layer =>
    if layer.length ≤ 1 then layer.head?
    else
      match hashPairs hash layer with
      | none => none
      | some next => merkleizeLayers hash fuel next

/-- The power-of-two padding loop of `merkleize` (lines 524-526): append zero
chunks until the chunk count is a power of two.  `fuel` only bounds the
iteration count; the caller passes `2 * count + 2`, which suffices because the
next power of two is below `2 * count + 2`. -/
def padToPowerOf2 : Nat → List (List Nat) → Option (List (List Nat))
  | 0, _ => none
  | fuel + 1, chunks =>
    if isPowerOf2 chunks.length then some chunks
    else padToPowerOf2 fuel (chunks ++ [zeroChunk])

/-- `merkleize` from the hashing source file (lines 518-546): a single chunk
is copied into the 32-byte root unchanged; otherwise pad the chunk count to a
power of two and hash pairwise layer by layer. -/
def merkleize (hash : List Nat → List Nat) (chunks : List (List Nat)) : Option (List Nat) :=
  if chunks.length = 1 then some (goCopy zeroChunk (chunks.headD []))
  else
    match padToPowerOf2 (2 * chunks.length + 2) chunks with
    | none => none
    | some padded =>
      match merkleizeLayers hash (padded.length + 1) padded with
      | none => none
      | some root => some (goCopy zeroChunk root)

/-- Depth of the Merkle tree over `next_pow2 limit` leaves:
`treeDepth limit = log2 (next_pow2 limit)` with `treeDepth 0 = 0`. -/
def treeDepth (n : Nat) : Nat :=
  if n ≤ 1 then 0 else treeDepth ((n + 1) / 2) + 1
termination_by n
decreasing_by omega

/-- Root of the perfect binary subtree of the given depth whose leftmost leaf
has the given index: pairwise SHA-256 bottom-up. -/
def merkleTreeRoot (hash : List Nat → List Nat) (leaf : Nat → List Nat) :
    Nat → Nat → List Nat
  | 0, i => leaf i
  | d + 1, i =>
    hash (merkleTreeRoot hash leaf d (2 * i) ++ merkleTreeRoot hash leaf d (2 * i + 1))

/-- Modelled from the spec: `merkle.Merkleize` of the external zssz library is
not part of this repository; §4.4 specifies it as the tree over
`next_pow2(limit)` leaves where leaves of index ≥ count are all-zero chunks,
hashed pairwise bottom-up, the single-chunk tree being the identity.  Leaves
below `count` come from the Go `leafIndexer`, i.e. `chunks[i]` (callers always
pass `count = len(chunks)`; out-of-range indices are modelled as zero
chunks). -/
def merkleizeLib (hash : List Nat → List Nat) (chunks : List (List Nat))
    (count limit : Nat) : List Nat :=
  merkleTreeRoot hash
    (fun i => if i < count then chunks.getD i zeroChunk else zeroChunk)
    (treeDepth limit) 0

/-- `bitwiseMerkleize` from the hashing source file (lines 458-467): reject
`count > limit` with the over-limit error before any hashing; otherwise
delegate to the library Merkleize over the chunk leaf indexer. -/
def bitwiseMerkleize (hash : List Nat → List Nat) (chunks : List (List Nat))
    (count limit : Nat) : Except String (List Nat) :=
  if count > limit then .error "merkleizing list that is too large, over limit"
  else .ok (merkleizeLib hash chunks count limit)

/-- C7: decoding a Boolean maps a first byte of 0 to `false` and 1 to `true`,
and rejects every other first byte with the invalid-boolean error. -/
theorem c7_bool_decoder (b : Nat) (rest : List Nat) :
    (b = 0 → decodeBool (b :: rest) = .ok (.b false) 1) ∧
    (b = 1 → decodeBool (b :: rest) = .ok (.b true) 1) ∧
    (b ≠ 0 → b ≠ 1 → decodeBool (b :: rest) =
      .err ("expect 0 or 1 for decoding bool but got " ++ toString b)) := by
  refine ⟨fun h => ?_, fun h => ?_, fun h0 h1 => ?_⟩ <;> simp [decodeBool, *]

/-- Witness for C7 at the first bytes 0, 1 and 2. -/
theorem c7_bool_decoder_witness :
    decodeBool [0] = .ok (.b false) 1 ∧ decodeBool [1, 9] = .ok (.b true) 1 ∧
    decodeBool [2] = .err ("expect 0 or 1 for decoding bool but got " ++ toString 2) :=
  ⟨(c7_bool_decoder 0 []).1 rfl, (c7_bool_decoder 1 [9]).2.1 rfl,
   (c7_bool_decoder 2 []).2.2 (by decide) (by decide)⟩

/-- C8: a nil target and a non-pointer target are rejected by `Decode` with
the nil-target and not-assignable errors, for every input alike — the result
does not depend on the input, so no decoding of the input is attempted. -/
theorem c8_target_validation (input : List Nat) (k : SSZKind) :
    Decode input .nilInterface = .failure "cannot decode into nil" ∧
    Decode input (.nonPointer k) = .failure "can only decode into pointer target" :=
  ⟨rfl, rfl⟩

/-- C9: eight input bytes decode as a Uint64 to their little-endian value;
in particular `[08,07,06,05,04,03,02,01]` decodes to `0x0102030405060708`. -/
theorem c9_uint64_little_endian (input : List Nat) (h : input.length = 8) :
    decodeUint64 input = .ok (.u (leUint input)) 8 ∧
    decodeUint64 [8, 7, 6, 5, 4, 3, 2, 1] = .ok (.u 0x0102030405060708) 8 := by
  refine ⟨?_, rfl⟩
  simp only [decodeUint64, goCopy, List.length_replicate]
  rw [List.take_of_length_le (Nat.le_of_eq h),
    List.drop_of_length_le (by rw [List.length_replicate, h]), List.append_nil]

/-- Witness for C9 at the spec's S1 example input. -/
theorem c9_uint64_little_endian_witness :
    decodeUint64 [8, 7, 6, 5, 4, 3, 2, 1] = .ok (.u (leUint [8, 7, 6, 5, 4, 3, 2, 1])) 8 :=
  (c9_uint64_little_endian [8, 7, 6, 5, 4, 3, 2, 1] (by decide)).1

/-- C3 fails on the code: the 7-byte proper prefix of the encoding of
`0x0102030405060708` is accepted by the Uint64 decoder (the copy into the
8-byte zero buffer silently zero-pads), both at the `decodeUint64` level and
through the exported `Decode`, instead of failing as truncated. -/
theorem c3_truncation_not_detected :
    ((encodeUint64 0x0102030405060708).take 7).length <
      (encodeUint64 0x0102030405060708).length ∧
    decodeUint64 ((encodeUint64 0x0102030405060708).take 7) = .ok (.u 0x0002030405060708) 8 ∧
    Decode ((encodeUint64 0x0102030405060708).take 7) (.pointer (.basic .uint64)) = .success :=
  ⟨by decide, rfl, rfl⟩

/-- C2 fails on the code: a 16-byte input decoded as `[]uint64` does yield
`16 / 8 = 2` elements, but a 9-byte input (not a multiple of 8) makes the
decoder slice `input[8:16]` past the end of the input — a Go runtime panic,
not an error return. -/
theorem c2_basic_slice_crash :
    makeDecoder (.basicSlice .uint64) (List.replicate 16 0) = .ok (.list [.u 0, .u 0]) 2 ∧
    makeDecoder (.basicSlice .uint64) (List.replicate 9 0) = .crash :=
  ⟨rfl, rfl⟩

lemma compositeSliceLoop_no_progress (fuel : Nat) :
    compositeSliceLoop 0 4 4 8 2 fuel = .outOfFuel := by
  induction fuel with
  | zero => rfl
  | succ n ih => simpa [compositeSliceLoop] using ih

/-- C1 fails on the code: on the 8-zero-byte input the composite-slice
decoder returns `len(input)/4 = 2` elements without decoding anything, while
the first 4-byte offset is 0, so the claim demands `0/4 = 0` elements; and on
`[4,0,0,0,8,0,0,0]` (first offset 4) its loop never makes progress, exhausting
every iteration budget instead of reading the remaining offsets and decoding
the element spans. -/
theorem c1_composite_decoder_incomplete :
    (∀ fuel, compositeSliceDecode (fuel + 1) (List.replicate 8 0) = .done 2) ∧
    leUint ((List.replicate 8 0).take BytesPerLengthOffset) / 4 = 0 ∧
    (∀ fuel, compositeSliceDecode fuel [4, 0, 0, 0, 8, 0, 0, 0] = .outOfFuel) := by
  refine ⟨fun fuel => rfl, rfl, fun fuel => ?_⟩
  simpa [compositeSliceDecode, BytesPerLengthOffset, leUint] using
    compositeSliceLoop_no_progress fuel

/-- C4: Merkleizing a single 32-byte chunk with count 1 and limit 1 returns
the chunk unchanged, both for the repository's `merkleize` and for
`bitwiseMerkleize`. -/
theorem c4_single_chunk_identity (hash : List Nat → List Nat) (c : List Nat)
    (h : c.length = 32) :
    merkleize hash [c] = some c ∧ bitwiseMerkleize hash [c] 1 1 = .ok c := by
  have hcopy : goCopy zeroChunk c = c := by
    simp only [goCopy, zeroChunk, BytesPerChunk, List.length_replicate]
    rw [List.take_of_length_le (Nat.le_of_eq h),
      List.drop_of_length_le (by rw [List.length_replicate, h]), List.append_nil]
  constructor
  · simp [merkleize, hcopy]
  · simp [bitwiseMerkleize, merkleizeLib, treeDepth, merkleTreeRoot]

/-- Witness for C4 at the all-zero chunk and a dummy hash. -/
theorem c4_single_chunk_identity_witness :
    merkleize (fun _ => []) [List.replicate 32 0] = some (List.replicate 32 0) ∧
    bitwiseMerkleize (fun _ => []) [List.replicate 32 0] 1 1 = .ok (List.replicate 32 0) :=
  c4_single_chunk_identity (fun _ => []) (List.replicate 32 0) (by decide)

/-- C5: `bitwiseMerkleize` fails with the over-limit error exactly when
`count > limit`, producing no root; when `count ≤ limit` it returns a root and
in particular never raises that error. -/
theorem c5_over_limit_check (hash : List Nat → List Nat) (chunks : List (List Nat))
    (count limit : Nat) :
    (limit < count → bitwiseMerkleize hash chunks count limit =
      .error "merkleizing list that is too large, over limit") ∧
    (count ≤ limit → ∃ root, bitwiseMerkleize hash chunks count limit = .ok root) := by
  constructor
  · intro h; simp [bitwiseMerkleize, h]
  · intro h
    refine ⟨merkleizeLib hash chunks count limit, ?_⟩
    simp [bitwiseMerkleize, Nat.not_lt.mpr h]

/-- Witness for C5: count 2 over limit 1 errors, count 1 within limit 1
returns a root. -/
theorem c5_over_limit_check_witness :
    bitwiseMerkleize (fun _ => []) [] 2 1 =
      .error "merkleizing list that is too large, over limit" ∧
    ∃ root, bitwiseMerkleize (fun _ => []) [] 1 1 = .ok root :=
  ⟨(c5_over_limit_check (fun _ => []) [] 2 1).1 (by decide),
   (c5_over_limit_check (fun _ => []) [] 1 1).2 (by decide)⟩

/-- C10: when the first serialized item is exactly 32 bytes long, `pack`
returns the item sequence unchanged — no flattening, re-chunking or padding of
the later items, whatever their lengths. -/
theorem c10_pack_first_item_shortcut (first : List Nat) (rest : List (List Nat))
    (h : first.length = 32) :
    pack (first :: rest) = .ok (first :: rest) := by
  have hne : first.isEmpty = false := by
    rw [List.isEmpty_eq_false]
    intro hnil
    rw [hnil] at h
    simp at h
  simp [pack, areAllEmpty, hne, BytesPerChunk, h]

/-- Witness for C10: a 32-byte first run followed by a 2-byte run is returned
unchanged, so the output contains a chunk that is not 32 bytes long. -/
theorem c10_pack_first_item_shortcut_witness :
    pack [List.replicate 32 7, [1, 2]] = .ok [List.replicate 32 7, [1, 2]] ∧
    ¬ ([1, 2] : List Nat).length = 32 :=
  ⟨c10_pack_first_item_shortcut (List.replicate 32 7) [[1, 2]] (by decide), by decide⟩

lemma chunkify_small {l : List Nat} (h1 : l.length ≠ 0) (h2 : l.length ≤ BytesPerChunk) :
    chunkify l = [l] := by
  rw [chunkify]
  simp [h1, h2]

lemma chunkify_big {l : List Nat} (h2 : ¬ l.length ≤ BytesPerChunk) :
    chunkify l = l.take BytesPerChunk :: chunkify (l.drop BytesPerChunk) := by
  rw [chunkify]
  have h1 : ¬ l.length = 0 := by
    simp only [BytesPerChunk] at h2
    omega
  simp [h1, h2]

lemma chunkify_ne_nil {l : List Nat} (h : l ≠ []) : chunkify l ≠ [] := by
  have h1 : l.length ≠ 0 := by simpa [List.length_eq_zero] using h
  by_cases h2 : l.length ≤ BytesPerChunk
  · simp [chunkify_small h1 h2]
  · simp [chunkify_big h2]

lemma pack_chunks_spec :
    ∀ (n : Nat) (l : List Nat), l.length = n → l ≠ [] →
      ((chunkify l).dropLast ++ [padChunkRight ((chunkify l).getLastD [])]).length
          = (l.length + 31) / 32 ∧
      (∀ c ∈ (chunkify l).dropLast ++ [padChunkRight ((chunkify l).getLastD [])],
        c.length = 32) ∧
      ((chunkify l).dropLast ++ [padChunkRight ((chunkify l).getLastD [])]).flatten
          = l ++ List.replicate ((32 - l.length % 32) % 32) 0 := by
  intro n
  induction n using Nat.strong_induction_on with
  | _ n ih =>
    intro l hlen hne
    have h0 : l.length ≠ 0 := by simpa [List.length_eq_zero] using hne
    by_cases h32 : l.length ≤ BytesPerChunk
    · have hb : l.length ≤ 32 := by simpa [BytesPerChunk] using h32
      rw [chunkify_small h0 h32]
      simp only [List.dropLast_single, List.getLastD_eq_getLast?, List.getLast?_singleton,
        Option.getD_some, List.nil_append, List.flatten_cons, List.flatten_nil,
        List.append_nil]
      refine ⟨by simp; omega, ?_, ?_⟩
      · intro c hc
        simp only [List.mem_singleton] at hc
        subst hc
        simp [padChunkRight, BytesPerChunk]
        omega
      · have hrep : BytesPerChunk - l.length = (32 - l.length % 32) % 32 := by
          simp only [BytesPerChunk]
          omega
        rw [padChunkRight, hrep]
    · have hlenbig : 32 < l.length := by simpa [BytesPerChunk] using h32
      have hl2len : (l.drop BytesPerChunk).length = l.length - 32 := by
        simp [BytesPerChunk]
      have hl2ne : l.drop BytesPerChunk ≠ [] := by
        rw [← List.length_pos]
        omega
      obtain ⟨c, cs, hcl2⟩ := List.exists_cons_of_ne_nil (chunkify_ne_nil hl2ne)
      have ihl2 := ih (l.drop BytesPerChunk).length (by omega) (l.drop BytesPerChunk)
        rfl hl2ne
      rw [hcl2] at ihl2
      obtain ⟨iha, ihb, ihc⟩ := ihl2
      rw [chunkify_big h32, hcl2]
      simp only [List.dropLast_cons₂, List.cons_append, List.getLastD_eq_getLast?,
        List.getLast?_cons_cons] at *
      refine ⟨?_, ?_, ?_⟩
      · simp only [List.length_cons]
        rw [iha]
        rw [hl2len]
        omega
      · intro d hd
        simp only [List.mem_cons] at hd
        rcases hd with hd | hd
        · subst hd
          simp [BytesPerChunk]
          omega
        · exact ihb d hd
      · simp only [List.flatten_cons]
        rw [ihc, ← List.append_assoc, List.take_append_drop]
        have hmod : (32 - (l.drop BytesPerChunk).length % 32) % 32 =
            (32 - l.length % 32) % 32 := by
          rw [hl2len]
          omega
        rw [hmod]

/-- C6 as stated is false on the code: when the first serialized item is
exactly 32 bytes long, `pack` returns the item sequence unchanged, so here the
second output chunk has length 1 instead of being part of a flattened,
32-byte-chunk partition. -/
theorem c6_pack_counterexample :
    pack [List.replicate 32 0, [1]] = .ok [List.replicate 32 0, [1]] ∧
    ¬ ∀ c ∈ [List.replicate 32 0, [1]], c.length = 32 := by
  exact ⟨rfl, by decide⟩

/-- C6 amended: excluding the all-empty input (which yields the single zero
chunk) and the shortcut taken when the first run is exactly 32 bytes long,
`pack` flattens the runs and partitions them into `⌈n/32⌉` consecutive chunks
of exactly 32 bytes whose concatenation is the flattened input right-padded
with zeros; and the empty input sequence yields exactly one all-zero chunk. -/
theorem c6_pack_partitions (items : List (List Nat))
    (h1 : areAllEmpty items = false) (h2 : (items.headD []).length ≠ 32) :
    (∃ chunks, pack items = .ok chunks ∧
      chunks.length = (items.flatten.length + 31) / 32 ∧
      (∀ c ∈ chunks, c.length = 32) ∧
      chunks.flatten = items.flatten ++
        List.replicate ((32 - items.flatten.length % 32) % 32) 0) ∧
    pack [] = .ok [zeroChunk] := by
  refine ⟨?_, rfl⟩
  have hitems : items ≠ [] := by
    rintro rfl
    simp [areAllEmpty] at h1
  have hflat : items.flatten ≠ [] := by
    rw [Ne, List.flatten_eq_nil_iff]
    intro hall
    rw [areAllEmpty, List.all_eq_false] at h1
    obtain ⟨x, hx, hxe⟩ := h1
    exact hxe (by simp [List.isEmpty_iff, hall x hx])
  have hcond : (items.length == 0 || areAllEmpty items) = false := by
    rw [Bool.or_eq_false_iff]
    refine ⟨?_, h1⟩
    rw [beq_eq_false_iff_ne]
    simpa [List.length_eq_zero] using hitems
  have hspec := pack_chunks_spec items.flatten.length items.flatten rfl hflat
  refine ⟨(chunkify items.flatten).dropLast ++
    [padChunkRight ((chunkify items.flatten).getLastD [])], ?_, hspec.1, hspec.2.1,
    hspec.2.2⟩
  rw [pack, hcond]
  simp only [Bool.false_eq_true, if_false]
  rw [if_neg (by simpa [BytesPerChunk] using h2)]

/-- Witness for the amended C6 at the runs `[[1,2,3]]` (and the empty input). -/
theorem c6_pack_partitions_witness :
    areAllEmpty [[1, 2, 3]] = false ∧ ([[1, 2, 3]].headD []).length ≠ 32 ∧
    ((∃ chunks, pack [[1, 2, 3]] = .ok chunks ∧
      chunks.length = ([[1, 2, 3]].flatten.length + 31) / 32 ∧
      (∀ c ∈ chunks, c.length = 32) ∧
      chunks.flatten = [[1, 2, 3]].flatten ++
        List.replicate ((32 - [[1, 2, 3]].flatten.length % 32) % 32) 0) ∧
    pack [] = .ok [zeroChunk]) := by
  have h := c6_pack_partitions [[1, 2, 3]] (by decide) (by decide)
  exact ⟨by decide, by decide, h⟩
